import Mathlib

/-!
Verification model of the miwifi_exporter concurrency/cache core.

The definitions below are shallow embeddings of the Go source:
 - `src/pkg/cache/smart_cache.go` (SmartCache and its methods),
 - `src/pkg/concurrent/worker_pool.go` (WorkerPool, ExecuteWithTimeout),
 - the concurrent data fetcher (DataFetcher.FetchData / fetchWithRetry).

Go wall-clock timestamps and durations are modelled as `Int` (the current
time is always passed explicitly as a parameter `now`), monotonic counters
as `Nat`, Go maps as association lists in enumeration order, `float64`
statistics as `ℚ`, and Go `interface{}` values as small inductive types.
-/

namespace MiWifi

/-! ## Cache model (src/pkg/cache/smart_cache.go) -/

/-- Model of the Go `interface{}` values stored in the cache, with one
constructor per arm of `estimateSize`'s type switch. -/
inductive CVal where
  | str (s : String)
  | int (n : Int)
  | boolean (b : Bool)
  | other (n : Nat)
deriving DecidableEq, Repr

/-- Port of `estimateSize` (smart_cache.go lines 233-253): rough size estimate by type. -/
def estimateSize : CVal → Nat
  | .str s => s.length
  | .int _ => 8
  | .boolean _ => 1
  | .other _ => 64

/-- Port of `SmartCacheItem` (smart_cache.go lines 35-41).  The Go zero `time.Time`
(`expiration.IsZero()`) is modelled as `none`. -/
structure SmartCacheItem where
  value : CVal
  expiration : Option Int
  accessed : Int
  accessCount : Int
  size : Nat
deriving DecidableEq, Repr

/-- Port of `SmartCacheItem.IsExpired` (smart_cache.go lines 256-258):
`!item.expiration.IsZero() && time.Now().After(item.expiration)`. -/
def SmartCacheItem.IsExpired (item : SmartCacheItem) (now : Int) : Bool :=
  match item.expiration with
  | none => false
  | some t => now > t

/-- Port of `SmartCache` (smart_cache.go lines 10-23).  The `items` map is an
association list in enumeration order; the mutex, tickers and contexts of
the Go struct synchronize access and carry no sequential meaning. -/
structure SmartCache where
  items : List (String × SmartCacheItem)
  ttl : Int
  hits : Nat
  misses : Nat
  evictions : Nat
  sizeLimit : Int
deriving DecidableEq, Repr

/-- Port of `NewSmartCache` (smart_cache.go lines 44-62), sequential fields only. -/
def NewSmartCache (ttl : Int) (sizeLimit : Int) : SmartCache :=
  { items := [], ttl := ttl, hits := 0, misses := 0, evictions := 0,
    sizeLimit := sizeLimit }

/-- Port of `deleteExpired` (smart_cache.go lines 222-230): delete the key if present
and count one eviction. -/
def SmartCache.deleteExpired (c : SmartCache) (key : String) : SmartCache :=
  if (c.items.lookup key).isSome then
    { c with items := c.items.filter (fun kv => kv.1 != key),
             evictions := c.evictions + 1 }
  else c

/-- Map update for the hit path of `Get`: the Go code mutates the item in
place through its pointer. -/
def SmartCache.updateItem (c : SmartCache) (key : String)
    (f : SmartCacheItem → SmartCacheItem) : SmartCache :=
  { c with items := c.items.map (fun kv => if kv.1 = key then (kv.1, f kv.2) else kv) }

/-- Port of `Get` (smart_cache.go lines 65-90): miss on absent key; an expired entry
is removed via `deleteExpired` and counted as a miss; a live entry has its
access statistics updated and counts as a hit. -/
def SmartCache.Get (c : SmartCache) (key : String) (now : Int) :
    Option CVal × SmartCache :=
  match c.items.lookup key with
  | none => (none, { c with misses := c.misses + 1 })
  | some item =>
    if item.IsExpired now then
      let c1 := c.deleteExpired key
      (none, { c1 with misses := c1.misses + 1 })
    else
      let c1 := c.updateItem key
        (fun it => { it with accessed := now, accessCount := it.accessCount + 1 })
      (some item.value, { c1 with hits := c1.hits + 1 })

/-- One iteration of the key-collection loop of `evictLRU` (smart_cache.go
lines 198-205), accumulating `(oldestKeys, oldestTime)`. -/
def evictFoldStep (acc : List String × Int) (kv : String × SmartCacheItem) :
    List String × Int :=
  if kv.2.accessed < acc.2 ∨ acc.1 = [] then ([kv.1], kv.2.accessed)
  else if kv.2.accessed = acc.2 then (acc.1 ++ [kv.1], acc.2)
  else acc

/-- The key-collection loop of `evictLRU` (smart_cache.go lines 194-205):
fold over the map, starting from `([], time.Now())`. -/
def evictOldestKeys (items : List (String × SmartCacheItem)) (now : Int) :
    List String :=
  (items.foldl evictFoldStep (([] : List String), now)).1

/-- The eviction loop body of `evictLRU` (smart_cache.go lines 208-211):
`delete(sc.items, oldestKeys[i]); sc.evictions++`. -/
def evictStep (acc : SmartCache) (k : String) : SmartCache :=
  { acc with items := acc.items.filter (fun kv => kv.1 != k),
             evictions := acc.evictions + 1 }

/-- Port of `evictLRU` (smart_cache.go lines 189-212): delete the first
`min(count, len(oldestKeys))` collected keys, counting one eviction each. -/
def SmartCache.evictLRU (c : SmartCache) (count : Nat) (now : Int) : SmartCache :=
  if count = 0 then c
  else ((evictOldestKeys c.items now).take count).foldl evictStep c

/-- Go map assignment `sc.items[key] = item`: replace in place when the key
exists, otherwise append. -/
def SmartCache.mapInsert (c : SmartCache) (key : String) (item : SmartCacheItem) :
    SmartCache :=
  if (c.items.lookup key).isSome then
    { c with items := c.items.map (fun kv => if kv.1 = key then (key, item) else kv) }
  else
    { c with items := c.items ++ [(key, item)] }

/-- Port of `Set` (smart_cache.go lines 93-119): evict one LRU entry whenever
`sizeLimit > 0 && len(items) >= sizeLimit` (this check precedes any key
lookup), compute `expiration = now + ttl` for `ttl > 0` and
`now + sc.ttl` otherwise, then store the fresh entry. -/
def SmartCache.Set (c : SmartCache) (key : String) (value : CVal) (ttl : Int)
    (now : Int) : SmartCache :=
  let size := estimateSize value
  let c1 := if c.sizeLimit > 0 ∧ (c.items.length : Int) ≥ c.sizeLimit then
      c.evictLRU 1 now
    else c
  let expiration : Int := if ttl > 0 then now + ttl else now + c.ttl
  c1.mapInsert key
    { value := value, expiration := some expiration, accessed := now,
      accessCount := 1, size := size }

/-- Port of `Delete` (smart_cache.go lines 122-130). -/
def SmartCache.Delete (c : SmartCache) (key : String) : SmartCache :=
  if (c.items.lookup key).isSome then
    { c with items := c.items.filter (fun kv => kv.1 != key),
             evictions := c.evictions + 1 }
  else c

/-- Port of `Clear` (smart_cache.go lines 133-139): the Go code reassigns
`sc.items = make(...)` first and only then adds `len(sc.items)` — the
length of the new, empty map — to the eviction counter. -/
def SmartCache.Clear (c : SmartCache) : SmartCache :=
  let c1 := { c with items := ([] : List (String × SmartCacheItem)) }
  { c1 with evictions := c1.evictions + c1.items.length }

/-- The sweep loop body of `cleanupExpired` (smart_cache.go lines 180-185):
delete the entry and count one eviction when it has expired. -/
def cleanupStep (now : Int) (acc : SmartCache) (kv : String × SmartCacheItem) :
    SmartCache :=
  if kv.2.IsExpired now then
    { acc with items := acc.items.filter (fun e => e.1 != kv.1),
               evictions := acc.evictions + 1 }
  else acc

/-- Port of `cleanupExpired` (smart_cache.go lines 176-186): iterate over the
entries, deleting each expired one and counting one eviction each. -/
def SmartCache.cleanupExpired (c : SmartCache) (now : Int) : SmartCache :=
  c.items.foldl (cleanupStep now) c

/-- Port of `CacheStats` (smart_cache.go lines 26-32); `HitRate` is modelled in `ℚ`. -/
structure CacheStats where
  hits : Nat
  misses : Nat
  evictions : Nat
  size : Nat
  hitRate : ℚ
deriving DecidableEq, Repr

/-- Port of `GetStats` (smart_cache.go lines 142-159). -/
def SmartCache.GetStats (c : SmartCache) : CacheStats :=
  let total := c.hits + c.misses
  let hitRate : ℚ := if total > 0 then (c.hits : ℚ) / (total : ℚ) else 0
  { hits := c.hits, misses := c.misses, evictions := c.evictions,
    size := c.items.length, hitRate := hitRate }

/-! ## Concurrent data fetcher model
(src/pkg/concurrent/worker_pool.go `ExecuteWithTimeout`, and the
`DataFetcher.FetchData` source file)

`FetchData` always submits exactly four tasks, so `ExecuteWithTimeout`
runs them fully in parallel (`workers = min(len(tasks), 4)`): a task's
result becomes ready on the result channel after its own work duration.
The model is parametrised by `arrival`, the completion order of the task
indices; a task's result is received before the deadline exactly when its
work duration is below the timeout.  The collection `select` of
`ExecuteWithTimeout` has two deadline branches — the caller's `ctx.Done`
and the internal `time.After(timeout)` timer — and which of them runs is
decided by which clock becomes ready first; the model carries that race
outcome as an explicit boolean.  `FetchData` derives its context with
`context.WithTimeout` of the very same duration *before*
`ExecuteWithTimeout` starts the timer, so its context deadline fires
first and the `ctx.Done` branch wins: `FetchData` instantiates the
boolean accordingly. -/

/-- Model of the Go `interface{}` task values: one constructor per typed
pointer that `FetchData`'s aggregation switch asserts. -/
inductive RVal where
  | sys (payload : Nat)
  | dev (payload : Nat)
  | wan (payload : Nat)
  | wifi (payload : Nat)
deriving DecidableEq, Repr

/-- Port of `concurrent.Result` (worker_pool.go lines 26-31). -/
structure MResult where
  id : Nat
  value : Option RVal
  error : Option String
  elapsed : Int
deriving DecidableEq, Repr

/-- Observable behaviour of one submitted task's `Work` closure: how long
the call takes and what it returns. -/
structure MTaskSpec where
  duration : Int
  value : Option RVal
  error : Option String
deriving DecidableEq, Repr

/-- Port of `concurrent.TimeoutError` (worker_pool.go lines 157-162). -/
structure MTimeoutError where
  timeout : Int
  received : Nat
  total : Nat
deriving DecidableEq, Repr

/-- The Result produced for task index `i` (worker itself; `task.ID = i`
is assigned at submission, worker_pool.go lines 123-126 and 87-96). -/
def taskResult (tasks : List MTaskSpec) (i : Nat) : MResult :=
  match tasks[i]? with
  | some t => { id := i, value := t.value, error := t.error, elapsed := t.duration }
  | none => { id := i, value := none, error := none, elapsed := 0 }

/-- The result-collection loop of `ExecuteWithTimeout` (worker_pool.go
lines 129-151): `results[result.ID] = result` over the arrival order,
into a slice of `len(tasks)` zero Results (modelled as `none`). -/
def collectResults (n : Nat) (arrivals : List MResult) : List (Option MResult) :=
  arrivals.foldl (fun acc r => acc.set r.id (some r)) (List.replicate n none)

/-- The task indices whose Results arrive before the deadline: those whose
work duration is below the timeout, in completion order. -/
def inTimeIdx (tasks : List MTaskSpec) (timeout : Int) (arrival : List Nat) :
    List Nat :=
  arrival.filter (fun i =>
    match tasks[i]? with
    | some t => t.duration < timeout
    | none => false)

/-- Error outcome of `ExecuteWithTimeout`'s collection loop (worker_pool.go
lines 134-151): either the `ctx.Done` branch returning `ctx.Err()` (lines
140-141) — which carries no received/total counts — or the `resultTimeout`
branch returning the distinct `TimeoutError` (lines 143-149). -/
inductive ExecError where
  | ctxErr
  | timedOut (te : MTimeoutError)
deriving DecidableEq, Repr

/-- Port of `ExecuteWithTimeout` (worker_pool.go lines 111-154) for at most
four tasks: the indices whose durations beat the timeout arrive (in
`arrival` order) before the deadline.  If any task is still outstanding
when the deadline passes, the collected results are discarded and the
`select` resolves through whichever deadline branch became ready first:
`ctxBeatsTimer = true` means the caller's context deadline preceded the
internal `time.After` timer, so `ctx.Err()` is returned (lines 140-141);
otherwise the timer fires and the `TimeoutError` carrying
`received`/`total` is returned (lines 143-149). -/
def executeWithTimeout (tasks : List MTaskSpec) (arrival : List Nat)
    (timeout : Int) (ctxBeatsTimer : Bool) :
    Except ExecError (List (Option MResult)) :=
  if tasks.length = 0 then .ok []
  else
    let inTime := inTimeIdx tasks timeout arrival
    if inTime.length < tasks.length then
      if ctxBeatsTimer then .error .ctxErr
      else .error (.timedOut
        { timeout := timeout, received := inTime.length, total := tasks.length })
    else
      .ok (collectResults tasks.length (inTime.map (taskResult tasks)))

/-- Port of `RouterData` (fetcher source, four independently-optional fields);
each field holds the payload of the correspondingly-typed value. -/
structure RouterData where
  systemStatus : Option Nat
  deviceList : Option Nat
  wanInfo : Option Nat
  wifiDetails : Option Nat
deriving DecidableEq, Repr

/-- The empty snapshot `&RouterData{}`. -/
def RouterData.empty : RouterData :=
  { systemStatus := none, deviceList := none, wanInfo := none, wifiDetails := none }

/-- The aggregation switch of `FetchData` (fetcher source lines 87-104):
route a successful Result into the snapshot field selected by its task id,
provided the type assertion succeeds. -/
def routeResult (d : RouterData) (r : MResult) : RouterData :=
  match r.id, r.value with
  | 0, some (.sys x) => { d with systemStatus := some x }
  | 1, some (.dev x) => { d with deviceList := some x }
  | 2, some (.wan x) => { d with wanInfo := some x }
  | 3, some (.wifi x) => { d with wifiDetails := some x }
  | _, _ => d

/-- One iteration of `FetchData`'s result-processing loop (fetcher source
lines 79-105).  A `none` slot is the Go zero Result: its nil error leaves
`firstError` alone and its nil value fails every type assertion. -/
def processStep (acc : RouterData × Option String) (r : Option MResult) :
    RouterData × Option String :=
  match r with
  | none => acc
  | some r =>
    match r.error with
    | some e =>
      match acc.2 with
      | some _ => acc
      | none => (acc.1, some e)
    | none => (routeResult acc.1 r, acc.2)

/-- Port of `FetchData`'s result-processing loop (fetcher source lines 76-105). -/
def processResults (results : List (Option MResult)) :
    RouterData × Option String :=
  results.foldl processStep (RouterData.empty, none)

/-- Behaviour of the four wrapped fetch calls of one `FetchData` round
(the outcome of each task's `fetchWithRetry`-wrapped `Work`), standing in
for the `RouterClient`. -/
structure RouterClientRuns where
  sysRun : MTaskSpec
  devRun : MTaskSpec
  wanRun : MTaskSpec
  wifiRun : MTaskSpec
deriving DecidableEq, Repr

/-- The four tasks `FetchData` builds, ids 0-3 (fetcher source lines 34-67). -/
def clientTasks (c : RouterClientRuns) : List MTaskSpec :=
  [c.sysRun, c.devRun, c.wanRun, c.wifiRun]

/-- The error `FetchData` returns, wrapping via `fmt.Errorf(..., %w, ...)`:
`ctxDeadline` wraps the `context.DeadlineExceeded` of FetchData's own
expired context, `timedOut` wraps the worker pool's `TimeoutError`, and
`aggregate` wraps the first per-task error. -/
inductive FetchError where
  | ctxDeadline
  | timedOut (te : MTimeoutError)
  | aggregate (e : String)
deriving DecidableEq, Repr

/-- Port of `FetchData` (fetcher source lines 29-112): derive a context via
`context.WithTimeout(ctx, df.timeout)` — whose deadline therefore starts,
and fires, before `ExecuteWithTimeout`'s equal-duration timer, hence
`ctxBeatsTimer = true` — run the four tasks, on error return a nil
snapshot with the wrapped error, and otherwise aggregate the results and
return the snapshot together with the wrapped first processing error, if
any. -/
def FetchData (c : RouterClientRuns) (arrival : List Nat) (timeout : Int) :
    Option RouterData × Option FetchError :=
  match executeWithTimeout (clientTasks c) arrival timeout true with
  | .error .ctxErr => (none, some .ctxDeadline)
  | .error (.timedOut te) => (none, some (.timedOut te))
  | .ok results =>
    let pr := processResults results
    match pr.2 with
    | some e => (some pr.1, some (.aggregate e))
    | none => (some pr.1, none)

/-! ## Retry model (`DataFetcher.fetchWithRetry`, fetcher source lines 115-146) -/

/-- Outcome of one `fetchFunc()` invocation. -/
inductive AttemptOutcome where
  | ok (v : RVal)
  | fail (e : String)
deriving DecidableEq, Repr

/-- Environment a `fetchWithRetry` call runs in: the outcome of the `i`-th
`fetchFunc()` invocation, and whether the surrounding context is already
done at each of the two points the code checks it (the `select` at the top
of iteration `i`, and the `select` during the sleep after failed
attempt `i`). -/
structure RetryEnv where
  attempt : Nat → AttemptOutcome
  doneAtTop : Nat → Bool
  doneInSleep : Nat → Bool

/-- What `fetchWithRetry` returns. -/
inductive RetryOutcome where
  | ok (v : RVal)
  | ctxErr
  | lastErr (e : Option String)
deriving DecidableEq, Repr

/-- Observable trace of one `fetchWithRetry` call: how many `fetchFunc()`
invocations were made, how many inter-attempt sleeps were waited out in
full, and the returned outcome. -/
structure RetryTrace where
  calls : Nat
  sleeps : Nat
  outcome : RetryOutcome
deriving DecidableEq, Repr

/-- The retry loop (fetcher source lines 118-143), structurally recursive
on the remaining fuel; `fetchWithRetry` enters it with `fuel = m` and
`i = 0`, and the fuel stays at least `m - i`, so the `fuel = 0` base case
coincides with the loop exit `¬ i < m`.  Iteration `i`: return `ctx.Err()`
if the context is done; invoke `fetchFunc`; return a success immediately;
after a failure, fall out of the loop without sleeping when `i` is the
last index, otherwise sleep — returning `ctx.Err()` at once if the context
fires mid-sleep — and continue. -/
def retryLoop (env : RetryEnv) (m : Nat) : Nat → Nat → Option String → RetryTrace
  | 0, _, le => ⟨0, 0, .lastErr le⟩
  | fuel + 1, i, le =>
    if m ≤ i then ⟨0, 0, .lastErr le⟩
    else if env.doneAtTop i then ⟨0, 0, .ctxErr⟩
    else
      match env.attempt i with
      | .ok v => ⟨1, 0, .ok v⟩
      | .fail e =>
        if i + 1 = m then ⟨1, 0, .lastErr (some e)⟩
        else if env.doneInSleep i then ⟨1, 0, .ctxErr⟩
        else
          let t := retryLoop env m fuel (i + 1) (some e)
          ⟨t.calls + 1, t.sleeps + 1, t.outcome⟩

/-- Port of `fetchWithRetry` (fetcher source lines 115-146) with `maxRetries = m`. -/
def fetchWithRetry (env : RetryEnv) (m : Nat) : RetryTrace :=
  retryLoop env m m 0 none

/-! ## Worker pool lifecycle model (src/pkg/concurrent/worker_pool.go)

Interleaving semantics for one pool after a batch of tasks has been
submitted.  Channels are modelled as bounded queues plus a closed flag;
`Stop()` contributes its three effects as separate steps in program order
(cancel, close task channel, and — enabled only once every worker has
returned, which is what `wg.Wait()` observes — close result channel).
Each worker loop contributes one step per `select` resolution.  A send on
the closed result channel (a Go panic) records `badSend`. -/

/-- State of one worker goroutine (worker_pool.go lines 77-108): in the
outer `select`, in the result-send `select` holding a computed result, or
returned. -/
inductive WState where
  | running
  | sending (id : Nat)
  | done
deriving DecidableEq, Repr

/-- Pool state: context flag, the two channels, the workers, and what the
consumer has received. -/
structure PoolState where
  ctxCancelled : Bool
  taskQueue : List Nat
  taskClosed : Bool
  resultQueue : List Nat
  resultClosed : Bool
  workers : List WState
  delivered : List Nat
  resultCap : Nat
  badSend : Bool
deriving DecidableEq, Repr

/-- One atomic step of the pool system. -/
inductive PStep where
  | cancel
  | closeTasks
  | closeResults
  | takeTask (w : Nat)
  | exitCtx (w : Nat)
  | exitClosed (w : Nat)
  | sendResult (w : Nat)
  | sendCtx (w : Nat)
  | receive
deriving DecidableEq, Repr

/-- Step semantics; `none` when the step is not enabled. -/
def pstep (s : PoolState) : PStep → Option PoolState
  | .cancel =>
    if s.ctxCancelled then none else some { s with ctxCancelled := true }
  | .closeTasks =>
    if s.ctxCancelled ∧ ¬s.taskClosed then some { s with taskClosed := true }
    else none
  | .closeResults =>
    if s.ctxCancelled ∧ s.taskClosed ∧ ¬s.resultClosed
        ∧ s.workers.all (fun w => w = .done) then
      some { s with resultClosed := true }
    else none
  | .takeTask w =>
    match s.workers[w]?, s.taskQueue with
    | some .running, t :: rest =>
      some { s with taskQueue := rest, workers := s.workers.set w (.sending t) }
    | _, _ => none
  | .exitCtx w =>
    match s.workers[w]? with
    | some .running =>
      if s.ctxCancelled then some { s with workers := s.workers.set w .done }
      else none
    | _ => none
  | .exitClosed w =>
    match s.workers[w]? with
    | some .running =>
      if s.taskClosed ∧ s.taskQueue = [] then
        some { s with workers := s.workers.set w .done }
      else none
    | _ => none
  | .sendResult w =>
    match s.workers[w]? with
    | some (.sending t) =>
      if s.resultClosed then
        some { s with badSend := true, workers := s.workers.set w .done }
      else if s.resultQueue.length < s.resultCap then
        some { s with resultQueue := s.resultQueue ++ [t],
                      workers := s.workers.set w .running }
      else none
    | _ => none
  | .sendCtx w =>
    match s.workers[w]? with
    | some (.sending _) =>
      if s.ctxCancelled then some { s with workers := s.workers.set w .done }
      else none
    | _ => none
  | .receive =>
    match s.resultQueue with
    | t :: rest =>
      some { s with resultQueue := rest, delivered := s.delivered ++ [t] }
    | [] => none

/-- Run a list of steps; `none` if any step is not enabled. -/
def runPool (s : PoolState) : List PStep → Option PoolState
  | [] => some s
  | a :: rest =>
    match pstep s a with
    | some s1 => runPool s1 rest
    | none => none

/-- Initial state after `NewWorkerPool(numWorkers)`, `Start()`, and the
submission of `tasks` (result channel capacity `workers*2`,
worker_pool.go line 40). -/
def initPool (tasks : List Nat) (numWorkers : Nat) : PoolState :=
  { ctxCancelled := false, taskQueue := tasks, taskClosed := false,
    resultQueue := [], resultClosed := false,
    workers := List.replicate numWorkers .running, delivered := [],
    resultCap := numWorkers * 2, badSend := false }

/-- The by-id slice of Results `FetchData` processes when all four tasks
complete in time: slot `i` holds task `i`'s Result. -/
def canonList (c : RouterClientRuns) : List (Option MResult) :=
  [some (taskResult (clientTasks c) 0), some (taskResult (clientTasks c) 1),
   some (taskResult (clientTasks c) 2), some (taskResult (clientTasks c) 3)]

/-- The snapshot component of one `processStep` iteration: a failed or zero
Result leaves the snapshot alone, a successful one is routed by id.  (The
snapshot evolves independently of the remembered first error.) -/
def fstStep (d : RouterData) (r? : Option MResult) : RouterData :=
  match r? with
  | none => d
  | some r =>
    match r.error with
    | some _ => d
    | none => routeResult d r

/-! ## Verification predicates -/

/-- Invariant of `evictLRU`'s key-collection fold: after processing the
entries `P`, the accumulator is either still the initial `([], now)` with
nothing processed, or its head key names an entry of `P` whose access time
equals the accumulated time, itself minimal over `P`. -/
def OldestAcc (now : Int) (P : List (String × SmartCacheItem))
    (acc : List String × Int) : Prop :=
  (acc.1 = [] ∧ P = [] ∧ acc.2 = now) ∨
  (∃ k it, acc.1.head? = some k ∧ (k, it) ∈ P ∧ it.accessed = acc.2 ∧
    ∀ kv ∈ P, acc.2 ≤ kv.2.accessed)

/-- Safety invariant of the pool system: the result channel is closed only
once every worker has returned, and no send on the closed result channel
has happened. -/
def PoolInv (s : PoolState) : Prop :=
  (s.resultClosed = true → ∀ w ∈ s.workers, w = .done) ∧ s.badSend = false

/-! ## Concrete fixtures used by witnesses and counterexamples -/

/-- Retry environment whose first attempt fails and whose second succeeds,
with the context never done. -/
def envW : RetryEnv :=
  { attempt := fun k => if k = 0 then .fail "e" else .ok (.sys 5),
    doneAtTop := fun _ => false, doneInSleep := fun _ => false }

/-- The pool state reached from one submitted task and one worker when the
worker exits on cancellation and `Stop()` completes. -/
def poolFinalFixture : PoolState :=
  { ctxCancelled := true, taskQueue := [7], taskClosed := true,
    resultQueue := [], resultClosed := true, workers := [.done],
    delivered := [], resultCap := 2, badSend := false }

/-- A cache item holding `1`, expiring at time 5, last accessed at 0. -/
def itemFixture : SmartCacheItem :=
  { value := CVal.int 1, expiration := some 5, accessed := 0,
    accessCount := 1, size := 8 }

/-- A one-entry cache whose sole entry expires at time 5. -/
def cacheFixture : SmartCache :=
  { items := [("k", itemFixture)], ttl := 100, hits := 0, misses := 0,
    evictions := 0, sizeLimit := 0 }

/-- Client behaviour with work durations {10, 20, 30, 1000}, all succeeding. -/
def c1client : RouterClientRuns :=
  { sysRun := { duration := 10, value := some (.sys 1), error := none },
    devRun := { duration := 20, value := some (.dev 2), error := none },
    wanRun := { duration := 30, value := some (.wan 3), error := none },
    wifiRun := { duration := 1000, value := some (.wifi 4), error := none } }

/-- Client behaviour where tasks 0 and 1 fail (with distinct errors) and
tasks 2 and 3 succeed; task 1 completes before task 0. -/
def c2client : RouterClientRuns :=
  { sysRun := { duration := 20, value := none, error := some "errA" },
    devRun := { duration := 10, value := none, error := some "errB" },
    wanRun := { duration := 5, value := some (.wan 3), error := none },
    wifiRun := { duration := 5, value := some (.wifi 4), error := none } }

/-- A successful Result of task 0. -/
def resW0 : MResult := { id := 0, value := some (.sys 1), error := none, elapsed := 5 }

/-- A failed Result of task 1. -/
def resW1 : MResult := { id := 1, value := none, error := some "e", elapsed := 7 }

/-! ## Association-list lemmas for the cache map -/

theorem lookup_cons_self {β : Type} (k : String) (v : β) (l : List (String × β)) :
    List.lookup k ((k, v) :: l) = some v := by
  have hb : (k == k) = true := beq_self_eq_true k
  simp [List.lookup, hb]

theorem lookup_cons_ne {β : Type} (k k1 : String) (v : β) (l : List (String × β))
    (h : k ≠ k1) : List.lookup k ((k1, v) :: l) = List.lookup k l := by
  have hb : (k == k1) = false := beq_eq_false_iff_ne.mpr h
  simp [List.lookup, hb]

theorem lookup_filter_self (l : List (String × SmartCacheItem)) (key : String) :
    List.lookup key (l.filter (fun kv => kv.1 != key)) = none := by
  induction l with
  | nil => simp
  | cons kv tl ih =>
    obtain ⟨k1, v1⟩ := kv
    by_cases h : k1 = key
    · simpa [List.filter_cons, h] using ih
    · rw [List.filter_cons]
      have hb : (k1 != key) = true := bne_iff_ne.mpr h
      simp only [hb, if_true]
      rw [lookup_cons_ne key k1 v1 _ (Ne.symm h)]
      exact ih

theorem lookup_map_replace_self (l : List (String × SmartCacheItem))
    (key : String) (it : SmartCacheItem) :
    (List.lookup key l).isSome →
    List.lookup key (l.map (fun kv => if kv.1 = key then (key, it) else kv)) =
      some it := by
  induction l with
  | nil => intro h; simp at h
  | cons kv tl ih =>
    intro h
    obtain ⟨k1, v1⟩ := kv
    by_cases hk : k1 = key
    · simp only [List.map_cons, if_pos hk]
      exact lookup_cons_self key it _
    · simp only [List.map_cons, if_neg hk]
      rw [lookup_cons_ne key k1 v1 _ (Ne.symm hk)]
      rw [lookup_cons_ne key k1 v1 tl (Ne.symm hk)] at h
      exact ih h

theorem lookup_map_replace_ne (l : List (String × SmartCacheItem))
    (key k : String) (it : SmartCacheItem) (h : k ≠ key) :
    List.lookup k (l.map (fun kv => if kv.1 = key then (key, it) else kv)) =
      List.lookup k l := by
  induction l with
  | nil => simp
  | cons kv tl ih =>
    obtain ⟨k1, v1⟩ := kv
    by_cases hk : k1 = key
    · simp only [List.map_cons, if_pos hk]
      rw [lookup_cons_ne k key it _ h, lookup_cons_ne k k1 v1 tl (hk ▸ h)]
      exact ih
    · simp only [List.map_cons, if_neg hk]
      by_cases hkk : k = k1
      · subst hkk
        rw [lookup_cons_self, lookup_cons_self]
      · rw [lookup_cons_ne k k1 v1 _ hkk, lookup_cons_ne k k1 v1 tl hkk]
        exact ih

theorem lookup_append_single_self (l : List (String × SmartCacheItem))
    (key : String) (it : SmartCacheItem) :
    List.lookup key l = none →
    List.lookup key (l ++ [(key, it)]) = some it := by
  induction l with
  | nil => intro _; exact lookup_cons_self key it []
  | cons kv tl ih =>
    intro h
    obtain ⟨k1, v1⟩ := kv
    by_cases hk : key = k1
    · rw [hk, lookup_cons_self] at h; exact absurd h (by simp)
    · rw [lookup_cons_ne key k1 v1 tl hk] at h
      rw [List.cons_append, lookup_cons_ne key k1 v1 _ hk]
      exact ih h

theorem lookup_append_single_ne (l : List (String × SmartCacheItem))
    (key k : String) (it : SmartCacheItem) (h : k ≠ key) :
    List.lookup k (l ++ [(key, it)]) = List.lookup k l := by
  induction l with
  | nil => simpa using lookup_cons_ne k key it [] h
  | cons kv tl ih =>
    obtain ⟨k1, v1⟩ := kv
    by_cases hkk : k = k1
    · subst hkk
      rw [List.cons_append, lookup_cons_self, lookup_cons_self]
    · rw [List.cons_append, lookup_cons_ne k k1 v1 _ hkk,
        lookup_cons_ne k k1 v1 tl hkk]
      exact ih

theorem lookup_mapInsert (c : SmartCache) (key : String) (it : SmartCacheItem) :
    (c.mapInsert key it).items.lookup key = some it := by
  unfold SmartCache.mapInsert
  by_cases h : (List.lookup key c.items).isSome
  · simp only [h, if_true]
    exact lookup_map_replace_self c.items key it h
  · simp only [h, if_false, Bool.false_eq_true]
    simp only [Option.not_isSome_iff_eq_none] at h
    exact lookup_append_single_self c.items key it h

theorem lookup_mapInsert_ne (c : SmartCache) (key k : String)
    (it : SmartCacheItem) (h : k ≠ key) :
    (c.mapInsert key it).items.lookup k = c.items.lookup k := by
  unfold SmartCache.mapInsert
  by_cases hs : (List.lookup key c.items).isSome
  · simp only [hs, if_true]
    exact lookup_map_replace_ne c.items key k it h
  · simp only [hs, if_false, Bool.false_eq_true]
    exact lookup_append_single_ne c.items key k it h

/-! ## Cache field-preservation lemmas -/

theorem deleteExpired_hits (c : SmartCache) (key : String) :
    (c.deleteExpired key).hits = c.hits := by
  unfold SmartCache.deleteExpired; split <;> rfl

theorem deleteExpired_misses (c : SmartCache) (key : String) :
    (c.deleteExpired key).misses = c.misses := by
  unfold SmartCache.deleteExpired; split <;> rfl

theorem cleanup_fold_evictions (now : Int) (l : List (String × SmartCacheItem)) :
    ∀ acc : SmartCache, (l.foldl (cleanupStep now) acc).evictions =
      acc.evictions + (l.filter (fun kv => kv.2.IsExpired now)).length := by
  induction l with
  | nil => intro acc; simp
  | cons kv tl ih =>
    intro acc
    rw [List.foldl_cons, List.filter_cons]
    cases hexp : kv.2.IsExpired now
    · simp only [cleanupStep, hexp, Bool.false_eq_true, if_false]
      rw [ih acc]
    · simp only [cleanupStep, hexp, if_true]
      rw [ih]
      simp only [List.length_cons]
      omega

/-- C5: for every entry set into the cache with TTL `t > 0` at time
`setTime`, `Get` hits exactly when `now ≤ setTime + t` and misses strictly
after; an item with no expiration never expires; and a `Get` that finds an
expired entry removes it and reports a miss. -/
theorem c5_expiry_semantics :
    (∀ (c : SmartCache) (key : String) (v : CVal) (t setTime now : Int),
      0 < t →
      ((c.Set key v t setTime).Get key now).1 =
        if now ≤ setTime + t then some v else none)
    ∧ (∀ (item : SmartCacheItem) (now : Int),
        item.expiration = none → item.IsExpired now = false)
    ∧ (∀ (c : SmartCache) (key : String) (item : SmartCacheItem) (now : Int),
        c.items.lookup key = some item → item.IsExpired now = true →
        (c.Get key now).1 = none ∧
        (c.Get key now).2.items.lookup key = none ∧
        (c.Get key now).2.misses = c.misses + 1) := by
  refine ⟨?_, ?_, ?_⟩
  · intro c key v t setTime now ht
    have hset : (c.Set key v t setTime).items.lookup key =
        some { value := v, expiration := some (setTime + t), accessed := setTime,
               accessCount := 1, size := estimateSize v } := by
      simp only [SmartCache.Set, if_pos ht]
      exact lookup_mapInsert _ key _
    by_cases hnow : now ≤ setTime + t
    · have hlt : ¬ (setTime + t < now) := not_lt.mpr hnow
      simp [SmartCache.Get, hset, SmartCacheItem.IsExpired, hlt, hnow]
    · have hlt : setTime + t < now := lt_of_not_le hnow
      simp [SmartCache.Get, hset, SmartCacheItem.IsExpired, hlt, hnow]
  · intro item now h
    simp [SmartCacheItem.IsExpired, h]
  · intro c key item now hl hexp
    have hs : (c.items.lookup key).isSome := by rw [hl]; rfl
    refine ⟨?_, ?_, ?_⟩
    · simp [SmartCache.Get, hl, hexp]
    · simp [SmartCache.Get, hl, hexp, SmartCache.deleteExpired, hs,
        lookup_filter_self]
    · simp [SmartCache.Get, hl, hexp, deleteExpired_misses]

/-- C5 witness: a value set with TTL 5 at time 0 is still a hit at time 3. -/
theorem c5_witness :
    (0 : Int) < 5 ∧
    (((NewSmartCache 100 10).Set "k" (.int 7) 5 0).Get "k" 3).1 =
      (if (3 : Int) ≤ 0 + 5 then some (CVal.int 7) else none) :=
  ⟨by decide, c5_expiry_semantics.1 (NewSmartCache 100 10) "k" (.int 7) 5 0 3 (by decide)⟩

/-- C6: every `Get` increments exactly one of the hit or miss counters (an
expired-but-present entry counts as a miss), and `GetStats` reports
`hitRate = hits/(hits+misses)` — which is `0` when no `Get` has occurred,
since both counters are then zero. -/
theorem c6_hit_miss_stats :
    (∀ (c : SmartCache) (key : String) (now : Int),
      ((c.Get key now).2.hits = c.hits + 1 ∧ (c.Get key now).2.misses = c.misses)
      ∨ ((c.Get key now).2.misses = c.misses + 1 ∧ (c.Get key now).2.hits = c.hits))
    ∧ (∀ (c : SmartCache) (key : String) (item : SmartCacheItem) (now : Int),
        c.items.lookup key = some item → item.IsExpired now = true →
        (c.Get key now).2.misses = c.misses + 1 ∧ (c.Get key now).2.hits = c.hits)
    ∧ (∀ c : SmartCache,
        (c.GetStats).hitRate = (c.hits : ℚ) / ((c.hits : ℚ) + (c.misses : ℚ))) := by
  refine ⟨?_, ?_, ?_⟩
  · intro c key now
    cases hl : c.items.lookup key with
    | none => right; simp [SmartCache.Get, hl]
    | some item =>
      cases hexp : item.IsExpired now
      · left
        simp [SmartCache.Get, hl, hexp, SmartCache.updateItem]
      · right
        simp [SmartCache.Get, hl, hexp, deleteExpired_misses, deleteExpired_hits]
  · intro c key item now hl hexp
    simp [SmartCache.Get, hl, hexp, deleteExpired_misses, deleteExpired_hits]
  · intro c
    by_cases h : 0 < c.hits + c.misses
    · simp only [SmartCache.GetStats, if_pos h]
      push_cast
      ring
    · have h1 : c.hits = 0 := by omega
      have h2 : c.misses = 0 := by omega
      simp [SmartCache.GetStats, h, h1, h2]

/-- C6 witness: a `Get` on an empty cache counts one miss, and the hit rate
of a fresh cache is `0/(0+0) = 0`. -/
theorem c6_witness :
    (((NewSmartCache 100 10).Get "k" 0).2.hits = (NewSmartCache 100 10).hits + 1 ∧
      ((NewSmartCache 100 10).Get "k" 0).2.misses = (NewSmartCache 100 10).misses)
    ∨ (((NewSmartCache 100 10).Get "k" 0).2.misses = (NewSmartCache 100 10).misses + 1 ∧
      ((NewSmartCache 100 10).Get "k" 0).2.hits = (NewSmartCache 100 10).hits) :=
  c6_hit_miss_stats.1 (NewSmartCache 100 10) "k" 0

/-- C10: `Delete` of a present key increments the eviction counter by one
(and of an absent key changes nothing); lazy expiration during `Get`
counts one eviction; the sweep counts one eviction per expired entry; and
`Clear`, because it reassigns the map before reading its length, empties
the cache while leaving hits, misses and evictions unchanged. -/
theorem c10_eviction_accounting :
    (∀ (c : SmartCache) (key : String),
      ((c.items.lookup key).isSome →
        (c.Delete key).evictions = c.evictions + 1 ∧
        (c.Delete key).items.lookup key = none)
      ∧ (c.items.lookup key = none → c.Delete key = c))
    ∧ (∀ (c : SmartCache) (key : String) (item : SmartCacheItem) (now : Int),
        c.items.lookup key = some item → item.IsExpired now = true →
        (c.Get key now).2.evictions = c.evictions + 1)
    ∧ (∀ (c : SmartCache) (now : Int),
        (c.cleanupExpired now).evictions =
          c.evictions + (c.items.filter (fun kv => kv.2.IsExpired now)).length)
    ∧ (∀ c : SmartCache,
        (c.Clear).items = [] ∧ (c.Clear).hits = c.hits ∧
        (c.Clear).misses = c.misses ∧ (c.Clear).evictions = c.evictions) := by
  refine ⟨?_, ?_, ?_, ?_⟩
  · intro c key
    constructor
    · intro hs
      constructor
      · simp [SmartCache.Delete, hs]
      · simp [SmartCache.Delete, hs, lookup_filter_self]
    · intro hn
      have hs : (c.items.lookup key).isSome = false := by rw [hn]; rfl
      simp [SmartCache.Delete, hs]
  · intro c key item now hl hexp
    have hs : (c.items.lookup key).isSome := by rw [hl]; rfl
    simp [SmartCache.Get, hl, hexp, SmartCache.deleteExpired, hs]
  · intro c now
    exact cleanup_fold_evictions now c.items c
  · intro c
    refine ⟨rfl, rfl, rfl, by simp [SmartCache.Clear]⟩

/-- C10 witness: deleting the sole (present) key of a one-entry cache
counts one eviction and removes the key. -/
theorem c10_witness :
    (cacheFixture.items.lookup "k").isSome = true ∧
    (cacheFixture.Delete "k").evictions = cacheFixture.evictions + 1 :=
  ⟨rfl, ((c10_eviction_accounting.1 cacheFixture "k").1 rfl).1⟩

/-! ## LRU selection lemmas -/

theorem evictFoldStep_good (now : Int) (P : List (String × SmartCacheItem))
    (acc : List String × Int) (kv : String × SmartCacheItem)
    (h : OldestAcc now P acc) : OldestAcc now (P ++ [kv]) (evictFoldStep acc kv) := by
  rcases h with ⟨h1, h2, _⟩ | ⟨k, it, hhead, hmem, hacc, hmin⟩
  · right
    refine ⟨kv.1, kv.2, ?_, ?_, ?_, ?_⟩
    · simp [evictFoldStep, h1]
    · simp
    · simp [evictFoldStep, h1]
    · intro e he
      rw [h2] at he
      simp at he
      simp [evictFoldStep, h1, he]
  · have hne : acc.1 ≠ [] := by
      intro hnil; rw [hnil] at hhead; simp at hhead
    by_cases hlt : kv.2.accessed < acc.2
    · right
      refine ⟨kv.1, kv.2, ?_, ?_, ?_, ?_⟩
      · simp [evictFoldStep, hlt]
      · simp
      · simp [evictFoldStep, hlt]
      · intro e he
        simp only [evictFoldStep, hlt, true_or, if_true]
        rcases List.mem_append.mp he with heP | heq
        · exact le_trans (le_of_lt hlt) (hmin e heP)
        · simp at heq; rw [heq]
    · by_cases heqt : kv.2.accessed = acc.2
      · right
        have hstep : evictFoldStep acc kv = (acc.1 ++ [kv.1], acc.2) := by
          simp [evictFoldStep, hlt, hne, heqt]
        refine ⟨k, it, ?_, ?_, ?_, ?_⟩
        · rw [hstep]
          simpa [List.head?_append_of_ne_nil acc.1 hne] using hhead
        · exact List.mem_append.mpr (Or.inl hmem)
        · rw [hstep]; exact hacc
        · intro e he
          rw [hstep]
          rcases List.mem_append.mp he with heP | heq
          · exact hmin e heP
          · simp at heq; rw [heq, heqt]
      · right
        have hstep : evictFoldStep acc kv = acc := by
          simp [evictFoldStep, hlt, hne, heqt]
        refine ⟨k, it, ?_, ?_, ?_, ?_⟩
        · rw [hstep]; exact hhead
        · exact List.mem_append.mpr (Or.inl hmem)
        · rw [hstep]; exact hacc
        · intro e he
          rw [hstep]
          rcases List.mem_append.mp he with heP | heq
          · exact hmin e heP
          · simp at heq; rw [heq]
            exact le_of_not_lt hlt

theorem evictFold_oldest (now : Int) (l : List (String × SmartCacheItem)) :
    ∀ (P : List (String × SmartCacheItem)) (acc : List String × Int),
      OldestAcc now P acc → OldestAcc now (P ++ l) (l.foldl evictFoldStep acc) := by
  induction l with
  | nil => intro P acc h; simpa using h
  | cons kv tl ih =>
    intro P acc h
    rw [List.foldl_cons]
    have := ih (P ++ [kv]) (evictFoldStep acc kv) (evictFoldStep_good now P acc kv h)
    simpa using this

theorem evictOldestKeys_spec (items : List (String × SmartCacheItem)) (now : Int)
    (h : items ≠ []) :
    ∃ k it, (evictOldestKeys items now).head? = some k ∧ (k, it) ∈ items ∧
      ∀ kv ∈ items, it.accessed ≤ kv.2.accessed := by
  have hg := evictFold_oldest now items [] ([], now) (Or.inl ⟨rfl, rfl, rfl⟩)
  simp only [List.nil_append] at hg
  rcases hg with ⟨_, h2, _⟩ | ⟨k, it, hh, hm, ha, hmin⟩
  · exact absurd h2 h
  · refine ⟨k, it, hh, hm, ?_⟩
    intro kv hkv
    rw [ha]
    exact hmin kv hkv

theorem mapInsert_evictions (c : SmartCache) (key : String) (it : SmartCacheItem) :
    (c.mapInsert key it).evictions = c.evictions := by
  unfold SmartCache.mapInsert; split <;> rfl

theorem mapInsert_preserves (c : SmartCache) (key k : String) (it : SmartCacheItem)
    (h : k ≠ key) (hl : c.items.lookup k = none) :
    (c.mapInsert key it).items.lookup k = none := by
  rw [lookup_mapInsert_ne c key k it h]; exact hl

/-- C3 (amended): `Set` stores an entry expiring at `now + ttl` for
`ttl > 0` and `now + defaultTTL` otherwise; exactly one entry — one with
minimal `lastAccessedAt` — is evicted whenever the `Set` finds
`sizeLimit > 0` and `len(items) ≥ sizeLimit`, including when the key being
set already exists (the capacity check precedes the key lookup); no
eviction happens below capacity, and never more than one per `Set`. -/
theorem c3_set_semantics (c : SmartCache) (key : String) (v : CVal) (ttl now : Int) :
    ((c.Set key v ttl now).items.lookup key =
      some { value := v,
             expiration := some (if ttl > 0 then now + ttl else now + c.ttl),
             accessed := now, accessCount := 1, size := estimateSize v })
    ∧ (¬(c.sizeLimit > 0 ∧ (c.items.length : Int) ≥ c.sizeLimit) →
        (c.Set key v ttl now).evictions = c.evictions)
    ∧ ((c.sizeLimit > 0 ∧ (c.items.length : Int) ≥ c.sizeLimit) →
        (c.Set key v ttl now).evictions = c.evictions + 1 ∧
        ∃ k it, (k, it) ∈ c.items ∧
          (∀ kv ∈ c.items, it.accessed ≤ kv.2.accessed) ∧
          (k ≠ key → (c.Set key v ttl now).items.lookup k = none)) := by
  refine ⟨?_, ?_, ?_⟩
  · simp only [SmartCache.Set]
    exact lookup_mapInsert _ key _
  · intro hcond
    simp only [SmartCache.Set, if_neg hcond]
    exact mapInsert_evictions _ key _
  · intro hcond
    have hne : c.items ≠ [] := by
      intro hnil
      rw [hnil] at hcond
      simp at hcond
      omega
    obtain ⟨k, it, hh, hm, hmin⟩ := evictOldestKeys_spec c.items now hne
    have htake : (evictOldestKeys c.items now).take 1 = [k] := by
      rw [List.take_one, hh]; rfl
    have hev : c.evictLRU 1 now = evictStep c k := by
      simp only [SmartCache.evictLRU, if_neg (by omega : ¬ (1 : Nat) = 0), htake,
        List.foldl_cons, List.foldl_nil]
    constructor
    · simp only [SmartCache.Set, if_pos hcond, hev]
      rw [mapInsert_evictions]
      rfl
    · refine ⟨k, it, hm, hmin, ?_⟩
      intro hkne
      simp only [SmartCache.Set, if_pos hcond, hev]
      apply mapInsert_preserves _ key k _ hkne
      exact lookup_filter_self c.items k

/-- C3 witness: on a cache whose size limit is 0 (disabled), `Set` evicts
nothing. -/
theorem c3_witness :
    ¬(cacheFixture.sizeLimit > 0 ∧
        ((cacheFixture.items.length : Int) ≥ cacheFixture.sizeLimit)) ∧
    (cacheFixture.Set "a" (CVal.int 3) 10 7).evictions = cacheFixture.evictions :=
  ⟨by decide, (c3_set_semantics cacheFixture "a" (CVal.int 3) 10 7).2.1 (by decide)⟩

/-- C3 counterexample: with `sizeLimit = 1`, setting the same (present) key
a second time is an overwrite, yet it still evicts an entry — the eviction
counter rises from 0 to 1 — contradicting "never when it overwrites an
existing key". -/
theorem c3_counterexample :
    ((((NewSmartCache 100 1).Set "a" (CVal.int 1) 10 0).items.lookup "a").isSome
        = true)
    ∧ (((NewSmartCache 100 1).Set "a" (CVal.int 1) 10 0).evictions = 0)
    ∧ ((((NewSmartCache 100 1).Set "a" (CVal.int 1) 10 0).Set "a" (CVal.int 2)
          10 5).evictions = 1) :=
  ⟨rfl, rfl, rfl⟩

/-! ## Fetcher lemmas -/

theorem taskResult_id (tasks : List MTaskSpec) (i : Nat) :
    (taskResult tasks i).id = i := by
  unfold taskResult; split <;> rfl

theorem collectResults_perm (n : Nat) (l1 l2 : List MResult) (hperm : l1.Perm l2)
    (hnodup : (l1.map MResult.id).Nodup) :
    collectResults n l1 = collectResults n l2 := by
  unfold collectResults
  refine List.Perm.foldl_eq' hperm ?_ _
  intro x hx y hy z
  by_cases hxy : x = y
  · subst hxy; rfl
  · have hne : x.id ≠ y.id := fun h => hxy (List.inj_on_of_nodup_map hnodup hx hy h)
    exact List.set_comm _ _ _ hne

theorem exec_all_fast (c : RouterClientRuns) (arrival : List Nat) (timeout : Int)
    (b : Bool) (hperm : arrival.Perm [0, 1, 2, 3])
    (hfast : ∀ t ∈ clientTasks c, t.duration < timeout) :
    executeWithTimeout (clientTasks c) arrival timeout b =
      .ok (collectResults 4 (arrival.map (taskResult (clientTasks c)))) := by
  have hfilter : inTimeIdx (clientTasks c) timeout arrival = arrival := by
    unfold inTimeIdx
    apply List.filter_eq_self.mpr
    intro i hi
    have hmem : i ∈ [0, 1, 2, 3] := hperm.mem_iff.mp hi
    have h0 : c.sysRun.duration < timeout := hfast c.sysRun (by simp [clientTasks])
    have h1 : c.devRun.duration < timeout := hfast c.devRun (by simp [clientTasks])
    have h2 : c.wanRun.duration < timeout := hfast c.wanRun (by simp [clientTasks])
    have h3 : c.wifiRun.duration < timeout := hfast c.wifiRun (by simp [clientTasks])
    simp at hmem
    rcases hmem with rfl | rfl | rfl | rfl <;> simp [clientTasks, h0, h1, h2, h3]
  have hlen4 : arrival.length = 4 := by rw [hperm.length_eq]; rfl
  have hlen : (clientTasks c).length = 4 := rfl
  unfold executeWithTimeout
  rw [hfilter, hlen]
  norm_num [hlen4]

theorem fetchData_perm_arrival (c : RouterClientRuns) (arrival : List Nat)
    (timeout : Int) (hperm : arrival.Perm [0, 1, 2, 3])
    (hfast : ∀ t ∈ clientTasks c, t.duration < timeout) :
    FetchData c arrival timeout = FetchData c [0, 1, 2, 3] timeout := by
  unfold FetchData
  rw [exec_all_fast c arrival timeout true hperm hfast,
    exec_all_fast c [0, 1, 2, 3] timeout true (List.Perm.refl _) hfast]
  have hnodup : ((arrival.map (taskResult (clientTasks c))).map MResult.id).Nodup := by
    rw [List.map_map]
    have hco : (MResult.id ∘ taskResult (clientTasks c)) = fun i => i := by
      funext i; exact taskResult_id _ i
    rw [hco]
    simpa using (hperm.nodup_iff.mpr (by decide))
  rw [collectResults_perm 4 _ _ (hperm.map _) hnodup]

theorem fetchData_ok (c : RouterClientRuns) (timeout : Int)
    (hfast : ∀ t ∈ clientTasks c, t.duration < timeout) :
    FetchData c [0, 1, 2, 3] timeout =
      (some (processResults (canonList c)).1,
        ((processResults (canonList c)).2).map FetchError.aggregate) := by
  unfold FetchData
  rw [exec_all_fast c [0, 1, 2, 3] timeout true (List.Perm.refl _) hfast]
  have hcan : collectResults 4 ([0, 1, 2, 3].map (taskResult (clientTasks c))) =
      canonList c := rfl
  rw [hcan]
  rcases hpr : (processResults (canonList c)).2 with _ | e
  · simp [hpr]
  · simp [hpr]

theorem foldl_processStep_snd_some (l : List (Option MResult)) :
    ∀ (d : RouterData) (e : String), (l.foldl processStep (d, some e)).2 = some e := by
  induction l with
  | nil => intro d e; rfl
  | cons r? tl ih =>
    intro d e
    rw [List.foldl_cons]
    rcases r? with _ | r
    · exact ih d e
    · rcases hre : r.error with _ | e'
      · simp only [processStep, hre]
        exact ih _ e
      · simp only [processStep, hre]
        exact ih d e

theorem processResults_snd (l : List (Option MResult)) :
    ∀ d : RouterData, (l.foldl processStep (d, none)).2 =
      l.findSome? (fun r? => r?.bind MResult.error) := by
  induction l with
  | nil => intro d; rfl
  | cons r? tl ih =>
    intro d
    rw [List.foldl_cons, List.findSome?_cons]
    rcases r? with _ | r
    · exact ih d
    · rcases hre : r.error with _ | e
      · have h1 : processStep (d, none) (some r) = (routeResult d r, none) := by
          simp [processStep, hre]
        rw [h1, ih]
        simp [hre]
      · have h1 : processStep (d, none) (some r) = (d, some e) := by
          simp [processStep, hre]
        rw [h1, foldl_processStep_snd_some]
        simp [hre]

theorem routeResult_sys_ne (d : RouterData) (r : MResult) (h : r.id ≠ 0) :
    (routeResult d r).systemStatus = d.systemStatus := by
  unfold routeResult
  split <;> simp_all

theorem routeResult_dev_ne (d : RouterData) (r : MResult) (h : r.id ≠ 1) :
    (routeResult d r).deviceList = d.deviceList := by
  unfold routeResult
  split <;> simp_all

theorem routeResult_wan_ne (d : RouterData) (r : MResult) (h : r.id ≠ 2) :
    (routeResult d r).wanInfo = d.wanInfo := by
  unfold routeResult
  split <;> simp_all

theorem routeResult_wifi_ne (d : RouterData) (r : MResult) (h : r.id ≠ 3) :
    (routeResult d r).wifiDetails = d.wifiDetails := by
  unfold routeResult
  split <;> simp_all

theorem foldl_processStep_fst (l : List (Option MResult)) :
    ∀ (d : RouterData) (e? : Option String),
      (l.foldl processStep (d, e?)).1 = l.foldl fstStep d := by
  induction l with
  | nil => intros; rfl
  | cons r? tl ih =>
    intro d e?
    rw [List.foldl_cons, List.foldl_cons]
    rcases r? with _ | r
    · exact ih d e?
    · rcases hre : r.error with _ | e
      · have h1 : processStep (d, e?) (some r) = (routeResult d r, e?) := by
          simp [processStep, hre]
        have h2 : fstStep d (some r) = routeResult d r := by
          simp [fstStep, hre]
        rw [h1, h2]
        exact ih _ e?
      · have h2 : fstStep d (some r) = d := by simp [fstStep, hre]
        rcases e? with _ | e0
        · have h1 : processStep (d, none) (some r) = (d, some e) := by
            simp [processStep, hre]
          rw [h1, h2]
          exact ih d _
        · have h1 : processStep (d, some e0) (some r) = (d, some e0) := by
            simp [processStep, hre]
          rw [h1, h2]
          exact ih d _

theorem fstStep_sys_ne (d : RouterData) (r? : Option MResult)
    (h : ∀ r, r? = some r → r.id ≠ 0) :
    (fstStep d r?).systemStatus = d.systemStatus := by
  rcases r? with _ | r
  · rfl
  · rcases hre : r.error with _ | e
    · simp only [fstStep, hre]
      exact routeResult_sys_ne d r (h r rfl)
    · simp [fstStep, hre]

theorem fstStep_dev_ne (d : RouterData) (r? : Option MResult)
    (h : ∀ r, r? = some r → r.id ≠ 1) :
    (fstStep d r?).deviceList = d.deviceList := by
  rcases r? with _ | r
  · rfl
  · rcases hre : r.error with _ | e
    · simp only [fstStep, hre]
      exact routeResult_dev_ne d r (h r rfl)
    · simp [fstStep, hre]

theorem fstStep_wan_ne (d : RouterData) (r? : Option MResult)
    (h : ∀ r, r? = some r → r.id ≠ 2) :
    (fstStep d r?).wanInfo = d.wanInfo := by
  rcases r? with _ | r
  · rfl
  · rcases hre : r.error with _ | e
    · simp only [fstStep, hre]
      exact routeResult_wan_ne d r (h r rfl)
    · simp [fstStep, hre]

theorem fstStep_wifi_ne (d : RouterData) (r? : Option MResult)
    (h : ∀ r, r? = some r → r.id ≠ 3) :
    (fstStep d r?).wifiDetails = d.wifiDetails := by
  rcases r? with _ | r
  · rfl
  · rcases hre : r.error with _ | e
    · simp only [fstStep, hre]
      exact routeResult_wifi_ne d r (h r rfl)
    · simp [fstStep, hre]

theorem canonList_sys (c : RouterClientRuns) :
    (processResults (canonList c)).1.systemStatus =
      (match c.sysRun.error, c.sysRun.value with
       | none, some (.sys x) => some x
       | _, _ => none) := by
  have hpeel : ∀ (i : Nat), i ≠ 0 → ∀ d : RouterData,
      (fstStep d (some (taskResult (clientTasks c) i))).systemStatus =
        d.systemStatus := fun i hi d => fstStep_sys_ne d _ (fun r hr => by
          injection hr with h; rw [← h, taskResult_id]; exact hi)
  unfold processResults canonList
  rw [foldl_processStep_fst, List.foldl_cons, List.foldl_cons, List.foldl_cons,
    List.foldl_cons, List.foldl_nil]
  rw [hpeel 3 (by omega), hpeel 2 (by omega), hpeel 1 (by omega)]
  rcases hre : c.sysRun.error with _ | e
  · rcases hv : c.sysRun.value with _ | v
    · simp [fstStep, taskResult, clientTasks, routeResult, RouterData.empty, hre, hv]
    · rcases v <;>
        simp [fstStep, taskResult, clientTasks, routeResult, RouterData.empty, hre, hv]
  · simp [fstStep, taskResult, clientTasks, RouterData.empty, hre]

theorem canonList_dev (c : RouterClientRuns) :
    (processResults (canonList c)).1.deviceList =
      (match c.devRun.error, c.devRun.value with
       | none, some (.dev x) => some x
       | _, _ => none) := by
  have hpeel : ∀ (i : Nat), i ≠ 1 → ∀ d : RouterData,
      (fstStep d (some (taskResult (clientTasks c) i))).deviceList =
        d.deviceList := fun i hi d => fstStep_dev_ne d _ (fun r hr => by
          injection hr with h; rw [← h, taskResult_id]; exact hi)
  unfold processResults canonList
  rw [foldl_processStep_fst, List.foldl_cons, List.foldl_cons, List.foldl_cons,
    List.foldl_cons, List.foldl_nil]
  rw [hpeel 3 (by omega), hpeel 2 (by omega)]
  set A := fstStep RouterData.empty (some (taskResult (clientTasks c) 0)) with hAdef
  have hA : A.deviceList = none := by rw [hAdef, hpeel 0 (by omega)]; rfl
  rcases hre : c.devRun.error with _ | e
  · rcases hv : c.devRun.value with _ | v
    · simp [fstStep, taskResult, clientTasks, routeResult, hre, hv, hA]
    · rcases v <;> simp [fstStep, taskResult, clientTasks, routeResult, hre, hv, hA]
  · simp [fstStep, taskResult, clientTasks, hre, hA]

theorem canonList_wan (c : RouterClientRuns) :
    (processResults (canonList c)).1.wanInfo =
      (match c.wanRun.error, c.wanRun.value with
       | none, some (.wan x) => some x
       | _, _ => none) := by
  have hpeel : ∀ (i : Nat), i ≠ 2 → ∀ d : RouterData,
      (fstStep d (some (taskResult (clientTasks c) i))).wanInfo =
        d.wanInfo := fun i hi d => fstStep_wan_ne d _ (fun r hr => by
          injection hr with h; rw [← h, taskResult_id]; exact hi)
  unfold processResults canonList
  rw [foldl_processStep_fst, List.foldl_cons, List.foldl_cons, List.foldl_cons,
    List.foldl_cons, List.foldl_nil]
  rw [hpeel 3 (by omega)]
  set A := fstStep (fstStep RouterData.empty (some (taskResult (clientTasks c) 0)))
    (some (taskResult (clientTasks c) 1)) with hAdef
  have hA : A.wanInfo = none := by
    rw [hAdef, hpeel 1 (by omega), hpeel 0 (by omega)]; rfl
  rcases hre : c.wanRun.error with _ | e
  · rcases hv : c.wanRun.value with _ | v
    · simp [fstStep, taskResult, clientTasks, routeResult, hre, hv, hA]
    · rcases v <;> simp [fstStep, taskResult, clientTasks, routeResult, hre, hv, hA]
  · simp [fstStep, taskResult, clientTasks, hre, hA]

theorem canonList_wifi (c : RouterClientRuns) :
    (processResults (canonList c)).1.wifiDetails =
      (match c.wifiRun.error, c.wifiRun.value with
       | none, some (.wifi x) => some x
       | _, _ => none) := by
  have hpeel : ∀ (i : Nat), i ≠ 3 → ∀ d : RouterData,
      (fstStep d (some (taskResult (clientTasks c) i))).wifiDetails =
        d.wifiDetails := fun i hi d => fstStep_wifi_ne d _ (fun r hr => by
          injection hr with h; rw [← h, taskResult_id]; exact hi)
  unfold processResults canonList
  rw [foldl_processStep_fst, List.foldl_cons, List.foldl_cons, List.foldl_cons,
    List.foldl_cons, List.foldl_nil]
  set A := fstStep (fstStep (fstStep RouterData.empty
    (some (taskResult (clientTasks c) 0))) (some (taskResult (clientTasks c) 1)))
    (some (taskResult (clientTasks c) 2)) with hAdef
  have hA : A.wifiDetails = none := by
    rw [hAdef, hpeel 2 (by omega), hpeel 1 (by omega), hpeel 0 (by omega)]; rfl
  rcases hre : c.wifiRun.error with _ | e
  · rcases hv : c.wifiRun.value with _ | v
    · simp [fstStep, taskResult, clientTasks, routeResult, hre, hv, hA]
    · rcases v <;> simp [fstStep, taskResult, clientTasks, routeResult, hre, hv, hA]
  · simp [fstStep, taskResult, clientTasks, hre, hA]

/-- C9: the snapshot aggregated from the fetch Results is invariant under
their arrival order: the collection loop places each Result into the slice
slot given by its task id, so any permutation of the same Results (their
ids being distinct) yields an identical snapshot. -/
theorem c9_snapshot_arrival_invariant (n : Nat) (l1 l2 : List MResult)
    (hperm : l1.Perm l2) (hnodup : (l1.map MResult.id).Nodup) :
    (processResults (collectResults n l1)).1 =
      (processResults (collectResults n l2)).1 := by
  rw [collectResults_perm n l1 l2 hperm hnodup]

/-- C9 witness: two Results arriving in either order produce the same
snapshot. -/
theorem c9_witness :
    (processResults (collectResults 2 [resW0, resW1])).1 =
      (processResults (collectResults 2 [resW1, resW0])).1 :=
  c9_snapshot_arrival_invariant 2 [resW0, resW1] [resW1, resW0]
    (List.Perm.swap resW1 resW0 []) (by decide)

/-- C1 (amended): when fewer than four Results arrive before the timeout,
`FetchData` fails and returns a nil snapshot — the in-time Results are
discarded, not returned as a partial snapshot — and the error it returns
is the wrapped `context.DeadlineExceeded` of its own context: that
deadline, started before `ExecuteWithTimeout`'s equal-duration
`time.After` timer, fires first and wins the collection `select`, so the
error carries no received/total counts and is not the distinct
`TimeoutError` kind. -/
theorem c1_timeout_nil_snapshot (c : RouterClientRuns) (arrival : List Nat)
    (timeout : Int)
    (hrecv : (inTimeIdx (clientTasks c) timeout arrival).length < 4) :
    FetchData c arrival timeout = (none, some .ctxDeadline) := by
  unfold FetchData executeWithTimeout
  have hlen : (clientTasks c).length = 4 := rfl
  rw [hlen]
  norm_num [hrecv]

/-- C1 witness: the {10, 20, 30, 1000}ms tasks under a 50ms timeout leave
only three Results in time, and `FetchData` returns the nil snapshot with
the wrapped context deadline error. -/
theorem c1_witness :
    (inTimeIdx (clientTasks c1client) 50 [0, 1, 2, 3]).length < 4 ∧
    FetchData c1client [0, 1, 2, 3] 50 = (none, some .ctxDeadline) :=
  ⟨by decide, c1_timeout_nil_snapshot c1client [0, 1, 2, 3] 50 (by decide)⟩

/-- C1 counterexample: with four tasks taking {10, 20, 30, 1000} under a
50 timeout, `FetchData` returns a `none` snapshot — not a partial snapshot
containing the three fast fields — and its error is the wrapped
`context.DeadlineExceeded`, not the distinct timeout kind carrying
`received = 3`, `total = 4` that the claim asserts. -/
theorem c1_counterexample :
    FetchData c1client [0, 1, 2, 3] 50 = (none, some .ctxDeadline) ∧
    FetchError.ctxDeadline ≠
      FetchError.timedOut { timeout := 50, received := 3, total := 4 } :=
  ⟨rfl, by decide⟩

/-- C2 (amended): when several fetch tasks fail, the error returned
alongside the snapshot is the first error in task-id order — the Results
are placed into a slice indexed by id before the processing loop runs — so
completion order is irrelevant to which error is returned. -/
theorem c2_error_by_id_order (c : RouterClientRuns) (arrival : List Nat)
    (timeout : Int) (hperm : arrival.Perm [0, 1, 2, 3])
    (hfast : ∀ t ∈ clientTasks c, t.duration < timeout) :
    (FetchData c arrival timeout).2 =
      (([0, 1, 2, 3].map (taskResult (clientTasks c))).findSome?
        MResult.error).map FetchError.aggregate := by
  rw [fetchData_perm_arrival c arrival timeout hperm hfast,
    fetchData_ok c timeout hfast]
  have hsnd : (processResults (canonList c)).2 =
      (canonList c).findSome? (fun r? => r?.bind MResult.error) := by
    unfold processResults
    exact processResults_snd (canonList c) RouterData.empty
  show ((processResults (canonList c)).2).map FetchError.aggregate = _
  rw [hsnd]
  rfl

/-- C2 witness: with arrival order [0, 2, 1, 3] and all tasks in time, the
returned error is the first error of the id-ordered Results. -/
theorem c2_witness :
    (FetchData c2client [0, 2, 1, 3] 100).2 =
      (([0, 1, 2, 3].map (taskResult (clientTasks c2client))).findSome?
        MResult.error).map FetchError.aggregate :=
  c2_error_by_id_order c2client [0, 2, 1, 3] 100 (by decide) (by decide)

/-- C2 counterexample: tasks 0 and 1 both fail; task 1 (error "errB")
completes before task 0 (error "errA"), so the first error by completion
order is "errB" — yet `FetchData` returns "errA", the error of the failed
task with the smallest id. -/
theorem c2_counterexample :
    ([2, 3, 1, 0].map (taskResult (clientTasks c2client))).findSome?
        MResult.error = some "errB" ∧
    (FetchData c2client [2, 3, 1, 0] 100).2 = some (.aggregate "errA") ∧
    "errA" ≠ "errB" :=
  ⟨rfl, rfl, by decide⟩

/-- C7: when at least one task fails (after its retries) but the fetch does
not time out, `FetchData` returns a non-nil aggregate (not timeout) error
together with a snapshot in which every successfully fetched field is
populated — successful fields are never dropped. -/
theorem c7_aggregate_keeps_success (c : RouterClientRuns) (arrival : List Nat)
    (timeout : Int) (hperm : arrival.Perm [0, 1, 2, 3])
    (hfast : ∀ t ∈ clientTasks c, t.duration < timeout)
    (hfail : ¬(c.sysRun.error = none ∧ c.devRun.error = none ∧
        c.wanRun.error = none ∧ c.wifiRun.error = none)) :
    (FetchData c arrival timeout).2 ≠ none ∧
    (∀ te, (FetchData c arrival timeout).2 ≠ some (.timedOut te)) ∧
    (∀ x, c.sysRun.error = none → c.sysRun.value = some (.sys x) →
      ((FetchData c arrival timeout).1).map (fun d => d.systemStatus) =
        some (some x)) ∧
    (∀ x, c.devRun.error = none → c.devRun.value = some (.dev x) →
      ((FetchData c arrival timeout).1).map (fun d => d.deviceList) =
        some (some x)) ∧
    (∀ x, c.wanRun.error = none → c.wanRun.value = some (.wan x) →
      ((FetchData c arrival timeout).1).map (fun d => d.wanInfo) =
        some (some x)) ∧
    (∀ x, c.wifiRun.error = none → c.wifiRun.value = some (.wifi x) →
      ((FetchData c arrival timeout).1).map (fun d => d.wifiDetails) =
        some (some x)) := by
  rw [fetchData_perm_arrival c arrival timeout hperm hfast,
    fetchData_ok c timeout hfast]
  have hsnd : (processResults (canonList c)).2 =
      (canonList c).findSome? (fun r? => r?.bind MResult.error) := by
    unfold processResults
    exact processResults_snd (canonList c) RouterData.empty
  obtain ⟨e, he⟩ : ∃ e, (processResults (canonList c)).2 = some e := by
    rcases hfind : (processResults (canonList c)).2 with _ | e
    · exfalso
      rw [hsnd] at hfind
      rw [List.findSome?_eq_none_iff] at hfind
      apply hfail
      refine ⟨?_, ?_, ?_, ?_⟩
      · have := hfind (some (taskResult (clientTasks c) 0)) (by simp [canonList])
        simpa [taskResult, clientTasks] using this
      · have := hfind (some (taskResult (clientTasks c) 1)) (by simp [canonList])
        simpa [taskResult, clientTasks] using this
      · have := hfind (some (taskResult (clientTasks c) 2)) (by simp [canonList])
        simpa [taskResult, clientTasks] using this
      · have := hfind (some (taskResult (clientTasks c) 3)) (by simp [canonList])
        simpa [taskResult, clientTasks] using this
    · exact ⟨e, rfl⟩
  refine ⟨?_, ?_, ?_, ?_, ?_, ?_⟩
  · simp [he]
  · intro te
    simp [he]
  · intro x h1 h2
    simp [canonList_sys, h1, h2]
  · intro x h1 h2
    simp [canonList_dev, h1, h2]
  · intro x h1 h2
    simp [canonList_wan, h1, h2]
  · intro x h1 h2
    simp [canonList_wifi, h1, h2]

/-- C7 witness: with tasks 0 and 1 failing and tasks 2, 3 succeeding, the
successful WAN field is populated in the returned snapshot. -/
theorem c7_witness :
    ((FetchData c2client [0, 1, 2, 3] 100).1).map (fun d => d.wanInfo) =
      some (some 3) :=
  (c7_aggregate_keeps_success c2client [0, 1, 2, 3] 100 (by decide) (by decide)
    (by decide)).2.2.2.2.1 3 rfl rfl

/-! ## Retry loop lemmas -/

theorem retryLoop_calls_le (env : RetryEnv) (m : Nat) :
    ∀ (fuel i : Nat) (le : Option String),
      (retryLoop env m fuel i le).calls ≤ fuel := by
  intro fuel
  induction fuel with
  | zero => intro i le; simp [retryLoop]
  | succ f ih =>
    intro i le
    by_cases h1 : m ≤ i
    · simp [retryLoop, h1]
    · by_cases h2 : env.doneAtTop i = true
      · simp [retryLoop, h1, h2]
      · rcases h3 : env.attempt i with v | e
        · simp [retryLoop, h1, h2, h3]
        · by_cases h4 : i + 1 = m
          · simp [retryLoop, h1, h2, h3, h4]
          · by_cases h5 : env.doneInSleep i = true
            · simp [retryLoop, h1, h2, h3, h4, h5]
            · have hle := ih (i + 1) (some e)
              simp [retryLoop, h1, h2, h3, h4, h5]
              omega

theorem retryLoop_first_success (env : RetryEnv) (m : Nat) :
    ∀ (j fuel i : Nat) (le : Option String) (v : RVal),
      j < fuel → i + j < m →
      (∀ k, k < j → ∃ e, env.attempt (i + k) = .fail e) →
      (∀ k, k ≤ j → env.doneAtTop (i + k) = false) →
      (∀ k, k < j → env.doneInSleep (i + k) = false) →
      env.attempt (i + j) = .ok v →
      retryLoop env m fuel i le = ⟨j + 1, j, .ok v⟩ := by
  intro j
  induction j with
  | zero =>
    intro fuel i le v hjf him hfails htop hsleep hok
    obtain ⟨f, rfl⟩ : ∃ f, fuel = f + 1 := ⟨fuel - 1, by omega⟩
    have h1 : ¬ m ≤ i := by omega
    have h2 : env.doneAtTop i = false := by simpa using htop 0 (by omega)
    have h3 : env.attempt i = .ok v := by simpa using hok
    simp [retryLoop, h1, h2, h3]
  | succ j ih =>
    intro fuel i le v hjf him hfails htop hsleep hok
    obtain ⟨f, rfl⟩ : ∃ f, fuel = f + 1 := ⟨fuel - 1, by omega⟩
    have h1 : ¬ m ≤ i := by omega
    have h2 : env.doneAtTop i = false := by simpa using htop 0 (by omega)
    obtain ⟨e, he⟩ := hfails 0 (by omega)
    have he' : env.attempt i = .fail e := by simpa using he
    have h4 : ¬ (i + 1 = m) := by omega
    have h5 : env.doneInSleep i = false := by simpa using hsleep 0 (by omega)
    have hrec : retryLoop env m f (i + 1) (some e) = ⟨j + 1, j, .ok v⟩ := by
      refine ih f (i + 1) (some e) v (by omega) (by omega) ?_ ?_ ?_ ?_
      · intro k hk
        obtain ⟨e', he''⟩ := hfails (k + 1) (by omega)
        exact ⟨e', by rw [show i + 1 + k = i + (k + 1) from by omega]; exact he''⟩
      · intro k hk
        rw [show i + 1 + k = i + (k + 1) from by omega]
        exact htop (k + 1) (by omega)
      · intro k hk
        rw [show i + 1 + k = i + (k + 1) from by omega]
        exact hsleep (k + 1) (by omega)
      · rw [show i + 1 + j = i + (j + 1) from by omega]
        exact hok
    simp [retryLoop, h1, h2, he', h4, h5, hrec]

theorem retryLoop_all_fail (env : RetryEnv) (m : Nat) :
    ∀ (fuel i : Nat) (le : Option String) (e : String),
      i < m → m - i ≤ fuel →
      (∀ k, i ≤ k → k < m → env.doneAtTop k = false) →
      (∀ k, i ≤ k → k + 1 < m → env.doneInSleep k = false) →
      (∀ k, i ≤ k → k < m → ∃ e', env.attempt k = .fail e') →
      env.attempt (m - 1) = .fail e →
      retryLoop env m fuel i le = ⟨m - i, m - i - 1, .lastErr (some e)⟩ := by
  intro fuel
  induction fuel with
  | zero => intro i le e him hfuel _ _ _ _; omega
  | succ f ih =>
    intro i le e him hfuel htop hsleep hfails hlast
    have h1 : ¬ m ≤ i := by omega
    have h2 : env.doneAtTop i = false := htop i (le_refl i) him
    by_cases h4 : i + 1 = m
    · have heq : env.attempt i = .fail e := by
        rw [show i = m - 1 from by omega]
        exact hlast
      have hmi : m - i = 1 := by omega
      simp [retryLoop, h1, h2, heq, h4, hmi]
    · obtain ⟨e', he'⟩ := hfails i (le_refl i) him
      have h5 : env.doneInSleep i = false := hsleep i (le_refl i) (by omega)
      have hrec : retryLoop env m f (i + 1) (some e') =
          ⟨m - (i + 1), m - (i + 1) - 1, .lastErr (some e)⟩ := by
        refine ih (i + 1) (some e') e (by omega) (by omega) ?_ ?_ ?_ hlast
        · intro k hk1 hk2; exact htop k (by omega) hk2
        · intro k hk1 hk2; exact hsleep k (by omega) hk2
        · intro k hk1 hk2; exact hfails k (by omega) hk2
      have hc1 : m - (i + 1) + 1 = m - i := by omega
      have hc2 : m - (i + 1) - 1 + 1 = m - i - 1 := by omega
      simp [retryLoop, h1, h2, he', h4, h5, hrec, hc1, hc2]

theorem retryLoop_cancel_in_sleep (env : RetryEnv) (m : Nat) :
    ∀ (j fuel i : Nat) (le : Option String),
      j < fuel → i + j + 1 < m →
      (∀ k, k ≤ j → env.doneAtTop (i + k) = false) →
      (∀ k, k ≤ j → ∃ e, env.attempt (i + k) = .fail e) →
      (∀ k, k < j → env.doneInSleep (i + k) = false) →
      env.doneInSleep (i + j) = true →
      retryLoop env m fuel i le = ⟨j + 1, j, .ctxErr⟩ := by
  intro j
  induction j with
  | zero =>
    intro fuel i le hjf him htop hfails hsleep hdone
    obtain ⟨f, rfl⟩ : ∃ f, fuel = f + 1 := ⟨fuel - 1, by omega⟩
    have h1 : ¬ m ≤ i := by omega
    have h2 : env.doneAtTop i = false := by simpa using htop 0 (by omega)
    obtain ⟨e, he⟩ := hfails 0 (by omega)
    have he' : env.attempt i = .fail e := by simpa using he
    have h4 : ¬ (i + 1 = m) := by omega
    have h5 : env.doneInSleep i = true := by simpa using hdone
    simp [retryLoop, h1, h2, he', h4, h5]
  | succ j ih =>
    intro fuel i le hjf him htop hfails hsleep hdone
    obtain ⟨f, rfl⟩ : ∃ f, fuel = f + 1 := ⟨fuel - 1, by omega⟩
    have h1 : ¬ m ≤ i := by omega
    have h2 : env.doneAtTop i = false := by simpa using htop 0 (by omega)
    obtain ⟨e, he⟩ := hfails 0 (by omega)
    have he' : env.attempt i = .fail e := by simpa using he
    have h4 : ¬ (i + 1 = m) := by omega
    have h5 : env.doneInSleep i = false := by simpa using hsleep 0 (by omega)
    have hrec : retryLoop env m f (i + 1) (some e) = ⟨j + 1, j, .ctxErr⟩ := by
      refine ih f (i + 1) (some e) (by omega) (by omega) ?_ ?_ ?_ ?_
      · intro k hk
        rw [show i + 1 + k = i + (k + 1) from by omega]
        exact htop (k + 1) (by omega)
      · intro k hk
        obtain ⟨e', he''⟩ := hfails (k + 1) (by omega)
        exact ⟨e', by rw [show i + 1 + k = i + (k + 1) from by omega]; exact he''⟩
      · intro k hk
        rw [show i + 1 + k = i + (k + 1) from by omega]
        exact hsleep (k + 1) (by omega)
      · rw [show i + 1 + j = i + (j + 1) from by omega]
        exact hdone
    simp [retryLoop, h1, h2, he', h4, h5, hrec]

/-- C8: the retry wrapper invokes the underlying call at most `maxRetries`
times; it returns the first successful value with no further attempts,
having slept once between each pair of consecutive attempts; if every
attempt fails it returns the last error after the final attempt with no
sleep after it; and if the context fires during an inter-attempt sleep it
returns the context error immediately — the sleep is not waited out and no
further attempt is made. -/
theorem c8_retry_semantics :
    (∀ (env : RetryEnv) (m : Nat), (fetchWithRetry env m).calls ≤ m)
    ∧ (∀ (env : RetryEnv) (m j : Nat) (v : RVal),
        j < m →
        (∀ k, k < j → ∃ e, env.attempt k = .fail e) →
        (∀ k, k ≤ j → env.doneAtTop k = false) →
        (∀ k, k < j → env.doneInSleep k = false) →
        env.attempt j = .ok v →
        fetchWithRetry env m = ⟨j + 1, j, .ok v⟩)
    ∧ (∀ (env : RetryEnv) (m : Nat) (e : String),
        0 < m →
        (∀ k, k < m → env.doneAtTop k = false) →
        (∀ k, k + 1 < m → env.doneInSleep k = false) →
        (∀ k, k < m → ∃ e', env.attempt k = .fail e') →
        env.attempt (m - 1) = .fail e →
        fetchWithRetry env m = ⟨m, m - 1, .lastErr (some e)⟩)
    ∧ (∀ (env : RetryEnv) (m j : Nat),
        j + 1 < m →
        (∀ k, k ≤ j → env.doneAtTop k = false) →
        (∀ k, k ≤ j → ∃ e, env.attempt k = .fail e) →
        (∀ k, k < j → env.doneInSleep k = false) →
        env.doneInSleep j = true →
        fetchWithRetry env m = ⟨j + 1, j, .ctxErr⟩) := by
  refine ⟨?_, ?_, ?_, ?_⟩
  · intro env m
    exact retryLoop_calls_le env m m 0 none
  · intro env m j v hjm hfails htop hsleep hok
    refine retryLoop_first_success env m j m 0 none v (by omega) (by omega)
      ?_ ?_ ?_ ?_
    · intro k hk; simpa using hfails k hk
    · intro k hk; simpa using htop k hk
    · intro k hk; simpa using hsleep k hk
    · simpa using hok
  · intro env m e hm htop hsleep hfails hlast
    have := retryLoop_all_fail env m m 0 none e (by omega) (by omega)
      (fun k _ hk => htop k hk) (fun k _ hk => hsleep k hk)
      (fun k _ hk => hfails k hk) hlast
    simpa using this
  · intro env m j hjm htop hfails hsleep hdone
    refine retryLoop_cancel_in_sleep env m j m 0 none (by omega) (by omega)
      ?_ ?_ ?_ ?_
    · intro k hk; simpa using htop k hk
    · intro k hk; simpa using hfails k hk
    · intro k hk; simpa using hsleep k hk
    · simpa using hdone

/-- C8 witness: with the first attempt failing and the second succeeding
(no cancellation), the wrapper makes exactly two calls, sleeps once, and
returns the second attempt's value. -/
theorem c8_witness :
    fetchWithRetry envW 3 = ⟨2, 1, .ok (.sys 5)⟩ :=
  c8_retry_semantics.2.1 envW 3 1 (.sys 5) (by omega)
    (fun k hk => ⟨"e", by rw [show k = 0 from by omega]; rfl⟩)
    (fun _ _ => rfl)
    (fun _ _ => rfl)
    rfl

/-! ## Worker pool safety lemmas -/

theorem pstep_inv (s s' : PoolState) (a : PStep) (hinv : PoolInv s)
    (hstep : pstep s a = some s') : PoolInv s' := by
  obtain ⟨hclosed, hbad⟩ := hinv
  cases a with
  | cancel =>
    rcases hc : s.ctxCancelled with _ | _
    · simp only [pstep, hc, Bool.false_eq_true, if_neg, ite_false] at hstep
      injection hstep with heq
      subst heq
      exact ⟨fun h w hw => hclosed h w hw, hbad⟩
    · simp [pstep, hc] at hstep
  | closeTasks =>
    simp only [pstep] at hstep
    split at hstep
    · injection hstep with heq
      subst heq
      exact ⟨fun h w hw => hclosed h w hw, hbad⟩
    · cases hstep
  | closeResults =>
    simp only [pstep] at hstep
    split at hstep
    case isTrue h =>
      obtain ⟨hcc, htc, hrc, hall⟩ := h
      injection hstep with heq
      subst heq
      refine ⟨?_, hbad⟩
      intro _ w hw
      exact of_decide_eq_true (List.all_eq_true.mp hall w hw)
    case isFalse => cases hstep
  | takeTask w =>
    rcases hw : s.workers[w]? with _ | ws
    · simp only [pstep, hw] at hstep
      cases hstep
    · rcases ws with _ | t0 | _
      · rcases hq : s.taskQueue with _ | ⟨t, rest⟩
        · simp only [pstep, hw, hq] at hstep
          cases hstep
        · simp only [pstep, hw, hq] at hstep
          injection hstep with heq
          subst heq
          refine ⟨?_, hbad⟩
          intro h w' hw'
          have hrd : WState.running = WState.done :=
            hclosed h _ (List.getElem?_mem hw)
          simp at hrd
      · rcases hq : s.taskQueue with _ | ⟨t, rest⟩ <;>
          simp only [pstep, hw, hq] at hstep <;> cases hstep
      · rcases hq : s.taskQueue with _ | ⟨t, rest⟩ <;>
          simp only [pstep, hw, hq] at hstep <;> cases hstep
  | exitCtx w =>
    rcases hw : s.workers[w]? with _ | ws
    · simp only [pstep, hw] at hstep
      cases hstep
    · rcases ws with _ | t0 | _
      · simp only [pstep, hw] at hstep
        by_cases hcc : s.ctxCancelled = true
        · rw [if_pos hcc] at hstep
          injection hstep with heq
          subst heq
          refine ⟨?_, hbad⟩
          intro h w' hw'
          rcases List.mem_or_eq_of_mem_set hw' with hmem | rfl
          · exact hclosed h w' hmem
          · rfl
        · rw [if_neg hcc] at hstep
          cases hstep
      · simp only [pstep, hw] at hstep
        cases hstep
      · simp only [pstep, hw] at hstep
        cases hstep
  | exitClosed w =>
    rcases hw : s.workers[w]? with _ | ws
    · simp only [pstep, hw] at hstep
      cases hstep
    · rcases ws with _ | t0 | _
      · simp only [pstep, hw] at hstep
        by_cases hcc : s.taskClosed = true ∧ s.taskQueue = []
        · rw [if_pos hcc] at hstep
          injection hstep with heq
          subst heq
          refine ⟨?_, hbad⟩
          intro h w' hw'
          rcases List.mem_or_eq_of_mem_set hw' with hmem | rfl
          · exact hclosed h w' hmem
          · rfl
        · rw [if_neg hcc] at hstep
          cases hstep
      · simp only [pstep, hw] at hstep
        cases hstep
      · simp only [pstep, hw] at hstep
        cases hstep
  | sendResult w =>
    rcases hw : s.workers[w]? with _ | ws
    · simp only [pstep, hw] at hstep
      cases hstep
    · rcases ws with _ | t | _
      · simp only [pstep, hw] at hstep
        cases hstep
      · simp only [pstep, hw] at hstep
        by_cases hrc : s.resultClosed = true
        · exact absurd (hclosed hrc _ (List.getElem?_mem hw)) (by simp)
        · rw [if_neg hrc] at hstep
          split at hstep
          · injection hstep with heq
            subst heq
            refine ⟨?_, hbad⟩
            intro h w' hw'
            exact absurd h hrc
          · cases hstep
      · simp only [pstep, hw] at hstep
        cases hstep
  | sendCtx w =>
    rcases hw : s.workers[w]? with _ | ws
    · simp only [pstep, hw] at hstep
      cases hstep
    · rcases ws with _ | t0 | _
      · simp only [pstep, hw] at hstep
        cases hstep
      · simp only [pstep, hw] at hstep
        by_cases hcc : s.ctxCancelled = true
        · rw [if_pos hcc] at hstep
          injection hstep with heq
          subst heq
          refine ⟨?_, hbad⟩
          intro h w' hw'
          rcases List.mem_or_eq_of_mem_set hw' with hmem | rfl
          · exact hclosed h w' hmem
          · rfl
        · rw [if_neg hcc] at hstep
          cases hstep
      · simp only [pstep, hw] at hstep
        cases hstep
  | receive =>
    rcases hq : s.resultQueue with _ | ⟨t, rest⟩
    · simp only [pstep, hq] at hstep
      cases hstep
    · simp only [pstep, hq] at hstep
      injection hstep with heq
      subst heq
      exact ⟨fun h w hw => hclosed h w hw, hbad⟩

theorem runPool_inv (steps : List PStep) :
    ∀ s s' : PoolState, PoolInv s → runPool s steps = some s' → PoolInv s' := by
  induction steps with
  | nil =>
    intro s s' h hrun
    simp only [runPool] at hrun
    injection hrun with heq
    exact heq ▸ h
  | cons a rest ih =>
    intro s s' h hrun
    simp only [runPool] at hrun
    rcases hstep : pstep s a with _ | s1 <;> rw [hstep] at hrun
    · cases hrun
    · exact ih s1 s' (pstep_inv s s1 a h hstep) hrun

theorem initPool_inv (tasks : List Nat) (numWorkers : Nat) :
    PoolInv (initPool tasks numWorkers) := by
  constructor
  · intro h
    simp [initPool] at h
  · rfl

/-- C4 (amended): `Stop`'s ordering — cancel, close the task channel, wait
for every worker, and only then close the result channel — guarantees that
no interleaving of a submitted batch with `Stop()` ever sends on the
closed result channel; however, not all N Results need be observable:
cancellation can make a worker exit before executing queued tasks or
delivering a computed result. -/
theorem c4_no_send_on_closed (tasks : List Nat) (numWorkers : Nat)
    (steps : List PStep) (s : PoolState)
    (hrun : runPool (initPool tasks numWorkers) steps = some s) :
    s.badSend = false :=
  (runPool_inv steps (initPool tasks numWorkers) s
    (initPool_inv tasks numWorkers) hrun).2

/-- C4 witness: the execution in which the single worker exits on
cancellation and `Stop()` completes never sends on the closed channel. -/
theorem c4_witness :
    runPool (initPool [7] 1) [.cancel, .exitCtx 0, .closeTasks, .closeResults] =
      some poolFinalFixture ∧ poolFinalFixture.badSend = false :=
  ⟨rfl, c4_no_send_on_closed [7] 1
    [.cancel, .exitCtx 0, .closeTasks, .closeResults] poolFinalFixture rfl⟩

/-- C4 counterexample: one task is submitted and `Stop()` is called; the
worker resolves its `select` through the cancellation branch and exits
without running the queued task, `Stop()` completes, and the result
channel closes empty — zero of the N = 1 Results are ever observable,
refuting "all N Results are eventually observable before it closes". -/
theorem c4_counterexample :
    runPool (initPool [7] 1) [.cancel, .exitCtx 0, .closeTasks, .closeResults] =
      some poolFinalFixture ∧
    poolFinalFixture.resultClosed = true ∧
    poolFinalFixture.resultQueue = [] ∧
    poolFinalFixture.delivered = [] ∧
    (initPool [7] 1).taskQueue.length = 1 :=
  ⟨rfl, rfl, rfl, rfl, rfl⟩

end MiWifi
